import Mathlib

/-!
Verification of the record-to-table projection engine of `streamlit_app.py`:
field classification (`classify_blok_key`), section-table assembly
(`parse_blok_data`), row ordering and labelling (`sort_rows`, `row_label`),
commodity splitting (`split_komoditi`, `has_any_value`), person-sequence
assignment (`build_idart_map`) and the value formatters (`fmt_currency`,
`fmt_number`, `val_or_dash`).

Python scalar values are embedded as `PyVal` (None, str, int, float); floats
are modelled as exact rationals, and Python dicts as association lists with
unique keys, iterated in insertion order.
-/

/-- A Python scalar value as stored in a record: `None`, a string, an int or a
float.  Floats are modelled as exact rationals (every concrete value appearing
in the claims is exactly representable). -/
inductive PyVal where
  | vNone
  | vStr (s : String)
  | vInt (n : Int)
  | vFloat (q : ℚ)
deriving DecidableEq

/-- Digits (most significant first) to the natural number they denote. -/
def digitsToNat (ds : List Char) : Nat :=
  ds.foldl (fun a c => a * 10 + (c.toNat - '0'.toNat)) 0

/-- Split the reversed digit list of a number into groups of three, for
thousands grouping. -/
def chunksOfThree : List Char → List (List Char)
  | [] => []
  | a :: b :: c :: rest => [a, b, c] :: chunksOfThree rest
  | l => [l]

/-- Decimal digits of `n` with a `,` every three digits from the right, as in
Python `f"\x7bn:,d\x7d"`. -/
def groupNat (n : Nat) : String :=
  String.mk ((List.intercalate [','] (chunksOfThree (toString n).data.reverse)).reverse)

/-- Grouped decimal form of an integer, with a leading `-` when negative. -/
def groupedInt (n : Int) : String :=
  (if n < 0 then "-" else "") ++ groupNat n.natAbs

/-- Round the fraction `num / den` (with `den > 0`) to the nearest integer,
ties to the even integer: the rounding Python's fixed-point float formatting
(`:.0f`, `:.2f`) performs.  Working on the raw fraction keeps everything in
integer arithmetic: with `f = ⌊num / den⌋` the remainder is
`r = num/den - f ∈ [0, 1)`, and `r < 1/2 ↔ 2 * (num - f * den) < den`. -/
def roundHalfEvenFrac (num den : ℤ) : ℤ :=
  let f : ℤ := Int.fdiv num den
  let r2 : ℤ := 2 * (num - f * den)
  if r2 < den then f
  else if den < r2 then f + 1
  else if f % 2 = 0 then f else f + 1

/-- Round a rational to the nearest integer, ties to even. -/
def roundHalfEven (q : ℚ) : ℤ :=
  roundHalfEvenFrac q.num (q.den : ℤ)

/-- The Python exceptions `float()` and `int()` can raise here.  The
formatters' `except (TypeError, ValueError)` catches the first two;
`OverflowError` propagates out of them uncaught. -/
inductive PyExc where
  | typeError
  | valueError
  | overflowError
deriving DecidableEq

/-- The result of a successful `float()` conversion: a finite double
(modelled as its exact rational value), a signed infinity, or NaN. -/
inductive PyFloat where
  | fin (q : ℚ)
  | inf (neg : Bool)
  | nan
deriving DecidableEq

/-- Continue a digit group after its first digit: further digits, with single
underscores allowed between digits (PEP 515).  Returns the digits read (the
underscores removed) and the unconsumed remainder; a trailing or doubled
underscore is left unconsumed and makes the caller fail. -/
def digitGroupAux : List Char → (List Char × List Char)
  | '_' :: c :: rest =>
    if c.isDigit then
      let p := digitGroupAux rest
      (c :: p.1, p.2)
    else ([], '_' :: c :: rest)
  | c :: rest =>
    if c.isDigit then
      let p := digitGroupAux rest
      (c :: p.1, p.2)
    else ([], c :: rest)
  | [] => ([], [])

/-- A digit group of a Python float literal: at least one digit, single
underscores allowed between digits. -/
def digitGroup (cs : List Char) : Option (List Char × List Char) :=
  match cs with
  | c :: rest =>
    if c.isDigit then
      let p := digitGroupAux rest
      some (c :: p.1, p.2)
    else none
  | [] => none

/-- Exponent part of a float literal after `e`/`E`: optional sign then a
digit group, consuming the whole remainder. -/
def parseExpDigits (cs : List Char) : Option Int :=
  let p : Int × List Char :=
    match cs with
    | '+' :: t => (1, t)
    | '-' :: t => (-1, t)
    | _ => (1, cs)
  match digitGroup p.2 with
  | some (ds, []) => some (p.1 * (digitsToNat ds : Int))
  | _ => none

/-- Mantissa of a float literal: a digit group with an optional fractional
digit group after `.`, at least one digit in total.  Returns the integer
digits, the fraction digits and the unconsumed remainder. -/
def parseMantissa (cs : List Char) : Option (List Char × List Char × List Char) :=
  match digitGroup cs with
  | some (ds, r1) =>
    match r1 with
    | '.' :: r2 =>
      match digitGroup r2 with
      | some (fs, r3) => some (ds, fs, r3)
      | none => some (ds, [], r2)
    | _ => some (ds, [], r1)
  | none =>
    match cs with
    | '.' :: r2 =>
      match digitGroup r2 with
      | some (fs, r3) => some ([], fs, r3)
      | none => none
    | _ => none

/-- The exact rational value of the decimal literal
`[-] ds . fs e e0`, built directly as one fraction so the kernel can
evaluate it (rational addition and multiplication are irreducible). -/
def decimalToRat (neg : Bool) (ds fs : List Char) (e0 : Int) : ℚ :=
  let mant : Int := (digitsToNat (ds ++ fs) : Int)
  let sMant : Int := if neg then -mant else mant
  let ex : Int := e0 - (fs.length : Int)
  if 0 ≤ ex then mkRat (sMant * 10 ^ ex.toNat) 1 else mkRat sMant (10 ^ (-ex).toNat)

/-- Whether a real value overflows the IEEE double range when correctly
rounded to nearest, ties to even: `|x| ≥ 2^1024 - 2^970` (the midpoint
between the largest finite double `2^1024 - 2^971` and `2^1024`, which
itself rounds up to the even significand, i.e. to infinity).  Stated over
`Nat` so the kernel evaluates the powers directly. -/
def ratOverflowsDouble (q : ℚ) : Bool :=
  decide ((2 ^ 1024 - 2 ^ 970 : Nat) * q.den ≤ q.num.natAbs)

/-- Whether `float(n)` for an int raises `OverflowError`: same rounding
boundary. -/
def intOverflowsDouble (n : Int) : Bool :=
  decide ((2 ^ 1024 - 2 ^ 970 : Nat) ≤ n.natAbs)

deriving instance DecidableEq for Except

/-- Case-insensitive comparison of a character list against a lowercase
word. -/
def lowerEq (cs : List Char) (s : String) : Bool :=
  cs.map Char.toLower == s.data

/-- Python's `float(str)` conversion: surrounding whitespace, an optional
sign, then either an `inf`/`infinity`/`nan` literal (case-insensitive) or
digits (PEP 515 underscore groups allowed) with an optional fractional part
and an optional exponent.  A decimal value beyond the double range saturates
to infinity (string conversion never raises `OverflowError`); `none` is
`ValueError`.  The finite result is the exact rational value of the literal
rather than the nearest binary double; the sign of `-0.0` is not kept. -/
def parsePyFloat (s : String) : Option PyFloat :=
  let cs := ((s.data.dropWhile Char.isWhitespace).reverse.dropWhile Char.isWhitespace).reverse
  let p : Bool × List Char :=
    match cs with
    | '+' :: t => (false, t)
    | '-' :: t => (true, t)
    | _ => (false, cs)
  if lowerEq p.2 "inf" ∨ lowerEq p.2 "infinity" then some (PyFloat.inf p.1)
  else if lowerEq p.2 "nan" then some PyFloat.nan
  else
    match parseMantissa p.2 with
    | none => none
    | some (ds, fs, rest) =>
      let e0 : Option Int :=
        match rest with
        | [] => some 0
        | 'e' :: t => parseExpDigits t
        | 'E' :: t => parseExpDigits t
        | _ => none
      match e0 with
      | none => none
      | some e =>
        let q := decimalToRat p.1 ds fs e
        if ratOverflowsDouble q then some (PyFloat.inf p.1) else some (PyFloat.fin q)

/-- Python `float(val)` over a scalar: floats pass through, ints convert but
raise `OverflowError` beyond the double range, strings go through
`parsePyFloat` (failure is `ValueError`), `None` raises `TypeError`. -/
def pyFloatConv : PyVal → Except PyExc PyFloat
  | .vNone => .error .typeError
  | .vInt n => if intOverflowsDouble n then .error .overflowError else .ok (.fin n)
  | .vFloat q => .ok (.fin q)
  | .vStr s =>
    match parsePyFloat s with
    | some f => .ok f
    | none => .error .valueError

/-- Left-pad a string with zeros to length `d`. -/
def padZeros (d : Nat) (s : String) : String :=
  String.mk (List.replicate (d - s.length) '0') ++ s

/-- Python `str` of a float value, for rationals with a finite decimal
expansion (every actual binary float has one); other denominators get a
fraction placeholder, never reached from real float data.  `q * 10^e` is an
integer exactly when `den` divides `num * 10^e`. -/
def floatRepr (q : ℚ) : String :=
  if q.den = 1 then toString q.num ++ ".0"
  else
    let n := q.num
    let d : ℤ := (q.den : ℤ)
    match (List.range 40).find? (fun k => (n * 10 ^ (k + 1)) % d = 0) with
    | some k =>
      let e := k + 1
      let m := (n * 10 ^ e) / d
      let a := m.natAbs
      let p := 10 ^ e
      (if m < 0 then "-" else "") ++ toString (a / p) ++ "." ++ padZeros e (toString (a % p))
    | none => toString q.num ++ "/" ++ toString q.den

/-- Python `str(val)` over a scalar value. -/
def pyStr : PyVal → String
  | .vNone => "None"
  | .vStr s => s
  | .vInt n => toString n
  | .vFloat q => floatRepr q

/-- `f"\x7bv:,.2f\x7d"`: round-half-even at two decimals, grouped integer part,
exactly two fractional digits.  `q * 100` is the fraction
`(q.num * 100) / q.den`. -/
def fmtTwoDec (q : ℚ) : String :=
  let m := roundHalfEvenFrac (q.num * 100) (q.den : ℤ)
  let a := m.natAbs
  (if m < 0 then "-" else "") ++ groupNat (a / 100) ++ "." ++ padZeros 2 (toString (a % 100))

/-- `f"\x7bv:,.0f\x7d"` over a conversion result: round-half-even to an
integer with thousands grouping; infinities print `inf`/`-inf` and NaN
prints `nan`, as CPython's fixed-point formatting does. -/
def fmtFixed0 : PyFloat → String
  | .fin q => groupedInt (roundHalfEven q)
  | .inf neg => if neg then "-inf" else "inf"
  | .nan => "nan"

/-- `fmt_currency` from the source: `None` gives `"-"`; otherwise try
`float(val)` and format `:,.0f`; `TypeError`/`ValueError` are caught and
fall back to `str(val)`, while `OverflowError` (an int beyond double range)
propagates uncaught. -/
def fmt_currency (val : PyVal) : Except PyExc String :=
  match val with
  | .vNone => .ok "-"
  | v =>
    match pyFloatConv v with
    | .ok f => .ok (fmtFixed0 f)
    | .error .typeError => .ok (pyStr v)
    | .error .valueError => .ok (pyStr v)
    | .error .overflowError => .error .overflowError

/-- `fmt_number` from the source: `None` gives `"-"`; a numeric value formats
`:,.0f` when `v == int(v)` and `:,.2f` otherwise; `TypeError`/`ValueError`
are caught (so `int(nan)` raising `ValueError` falls back to `str(val)`)
while `OverflowError` — an int beyond the double range, or `int(±inf)` —
propagates uncaught. -/
def fmt_number (val : PyVal) : Except PyExc String :=
  match val with
  | .vNone => .ok "-"
  | v =>
    match pyFloatConv v with
    | .ok (.fin q) => .ok (if q.den = 1 then groupedInt q.num else fmtTwoDec q)
    | .ok (.inf _) => .error .overflowError
    | .ok .nan => .ok (pyStr v)
    | .error .typeError => .ok (pyStr v)
    | .error .valueError => .ok (pyStr v)
    | .error .overflowError => .error .overflowError

/-- Python `val == ""` over a scalar: only the empty string compares equal to
`""` (numbers and `None` never equal a string in Python 3). -/
def pyEqEmptyStr : PyVal → Bool
  | .vStr s => s == ""
  | _ => false

/-- `val_or_dash` from the source: `None` or `""` give `"-"`, anything else its
`str` form. -/
def val_or_dash (val : PyVal) : String :=
  if val = PyVal.vNone ∨ pyEqEmptyStr val = true then "-" else pyStr val

/-- `classify_blok_key` from the source: the ordered prefix patterns
`^B43[123]` (section = first four characters), `^B5[A-G]R` and `^B5[A-G]K`
(section = first three characters), `^B6R` and `^B7R`; anything else is
unrecognized. -/
def classify_blok_key (key : String) : Option String :=
  match key.data with
  | 'B' :: '4' :: '3' :: c :: _ =>
    if c = '1' ∨ c = '2' ∨ c = '3' then some (String.mk ['B', '4', '3', c]) else none
  | 'B' :: '5' :: c :: d :: _ =>
    if ('A' ≤ c ∧ c ≤ 'G') ∧ (d = 'R' ∨ d = 'K') then some (String.mk ['B', '5', c]) else none
  | 'B' :: '6' :: 'R' :: _ => some "B6"
  | 'B' :: '7' :: 'R' :: _ => some "B7"
  | _ => none

/-- The tail of the regex `K(\d+)`: a literal `K` followed by at least one
digit (trailing characters ignored, as with `re.match`); returns the digit
group. -/
def matchKcols (cs : List Char) : Option String :=
  match cs with
  | 'K' :: rest =>
    let ds := rest.takeWhile Char.isDigit
    if ds.isEmpty then none else some (String.mk ds)
  | _ => none

/-- The regex `R(\d+[A-Z]?)K(\d+)` applied with `re.match` semantics: `R`,
then a greedy digit run, then an optional uppercase letter (tried greedily
with backtracking, exactly as the regex engine does), then `K` and a digit
run; trailing characters are ignored.  Returns (row group, column digits). -/
def matchRowCol (cs : List Char) : Option (String × String) :=
  match cs with
  | 'R' :: rest =>
    let ds := rest.takeWhile Char.isDigit
    let r2 := rest.dropWhile Char.isDigit
    if ds.isEmpty then none
    else
      let greedy : Option (String × String) :=
        match r2 with
        | c :: r3 =>
          if c.isUpper then (matchKcols r3).map (fun cols => (String.mk (ds ++ [c]), cols))
          else none
        | [] => none
      match greedy with
      | some rc => some rc
      | none => (matchKcols r2).map (fun cols => (String.mk ds, cols))
  | _ => none

/-- The regex `R(\d+)$`: `R` followed by digits only, up to the end. -/
def matchRowOnly (cs : List Char) : Option String :=
  match cs with
  | 'R' :: rest => if rest ≠ [] ∧ rest.all Char.isDigit then some (String.mk rest) else none
  | _ => none

/-- The three address patterns of `parse_blok_data`, tried in order on the
suffix of a recognized field name: `R<num>[letter]K<num>`, then `R<num>`
(column fixed to `K4`), then `K<num>` with anything trailing (row fixed to
`"1"`).  Returns `(row key, column key)`, or `none` for a dropped field. -/
def parseAddress (suffix : String) : Option (String × String) :=
  match matchRowCol suffix.data with
  | some rc => some (rc.1, "K" ++ rc.2)
  | none =>
    match matchRowOnly suffix.data with
    | some r => some (r, "K4")
    | none =>
      match matchKcols suffix.data with
      | some c => some ("1", "K" ++ c)
      | none => none

/-- An inner `col → value` dict, as an insertion-ordered association list. -/
abbrev ColMap := List (String × PyVal)

/-- A `row → col → value` table, as an insertion-ordered association list. -/
abbrev RowMap := List (String × ColMap)

/-- Python dict update `d[k] = f(d.get(k))`: overwrite in place when the key
exists, append otherwise. -/
def updDict {α : Type} (d : List (String × α)) (k : String) (f : Option α → α) :
    List (String × α) :=
  match d with
  | [] => [(k, f none)]
  | kv :: rest => if kv.1 = k then (kv.1, f (some kv.2)) :: rest else kv :: updDict rest k f

/-- `rows.setdefault(r, \x7b\x7d)[c] = v`. -/
def setRowCol (rows : RowMap) (r c : String) (v : PyVal) : RowMap :=
  updDict rows r (fun old => updDict (old.getD []) c (fun _ => v))

/-- The inner loop of `parse_blok_data`: fold a section's fields into its
row table, stripping the section prefix and parsing the address suffix;
fields matching no pattern are dropped silently. -/
def buildRows (blokName : String) (data : List (String × PyVal)) : RowMap :=
  data.foldl (fun rows kv =>
    match parseAddress (String.mk (kv.1.data.drop blokName.data.length)) with
    | some rc => setRowCol rows rc.1 rc.2 kv.2
    | none => rows) []

/-- Deduplicate keeping each element's first occurrence, in order: the
iteration order of a Python dict built by repeated insertion (`setdefault`),
folding left and appending each element not seen before. -/
def firstDedup (l : List String) : List String :=
  l.foldl (fun acc a => if a ∈ acc then acc else acc ++ [a]) []

/-- A flat record: a Python dict field name → value, modelled as an
insertion-ordered association list with unique keys. -/
abbrev FlatRecord := List (String × PyVal)

/-- `parse_blok_data` from the source: group the record's fields by
recognized section (insertion order), skip a section when all its field
values are `None`, build its row table, and keep it only when the row table
is non-empty.  Grouping a dict's items by section is, in iteration order,
the per-section filter of the original items. -/
def parse_blok_data (rekap : FlatRecord) : List (String × RowMap) :=
  (firstDedup (rekap.filterMap (fun kv => classify_blok_key kv.1))).filterMap (fun b =>
    let data := rekap.filter (fun kv => decide (classify_blok_key kv.1 = some b))
    if data.all (fun kv => decide (kv.2 = PyVal.vNone)) then none
    else
      let rows := buildRows b data
      if rows.isEmpty then none else some (b, rows))

/-- The sections whose rows 11-15 are sub-items of row 1 (`SUB_ROW_BLOKS`). -/
def SUB_ROW_BLOKS : List String := ["B5E", "B5G"]

/-- The sub-item row keys (`SUB_ROWS`). -/
def SUB_ROWS : List String := ["11", "12", "13", "14", "15"]

/-- `re.match(r"(\d+)", r)` then `int(...)`, with 0 when there is no leading
digit: the numeric part of a row sort key. -/
def leadingNatOf (r : String) : Nat :=
  digitsToNat (r.data.takeWhile Char.isDigit)

/-- The sort key of `sort_rows`: for a flagged section's sub-row the float
`1.0 + (num - 10) / 10.0`, written as the single exact fraction
`(10 + (num - 10)) / 10` so the kernel can evaluate it (rational addition and
division are irreducible); otherwise the number itself. -/
def sort_key (blokName r : String) : ℚ :=
  let num := leadingNatOf r
  if blokName ∈ SUB_ROW_BLOKS ∧ r ∈ SUB_ROWS then mkRat (10 + ((num : Int) - 10)) 10
  else (num : Nat)

/-- `sort_rows` from the source: Python's stable `sorted` by `sort_key`,
modelled by stable merge sort with the induced `≤` on keys. -/
def rowLeB (blokName : String) (a b : String) : Bool :=
  decide (sort_key blokName a ≤ sort_key blokName b)

def sort_rows (blokName : String) (rowKeys : List String) : List String :=
  rowKeys.mergeSort (rowLeB blokName)

/-- `row_label` from the source: `R1.<n-10>` for a flagged section's sub-row,
`R<row>` otherwise.  `int(row_num)` is read off the digit characters; the
sub-row guard means it is only applied to the all-digit keys "11".."15". -/
def row_label (blokName rowNum : String) : String :=
  if blokName ∈ SUB_ROW_BLOKS ∧ rowNum ∈ SUB_ROWS then
    "R1." ++ toString (digitsToNat rowNum.data - 10)
  else "R" ++ rowNum

/-- One row of the `modul_komoditi` query: the commodity catalog sequence
number, the person id, and the fourteen generic value slots `Kolom1..Kolom14`
(in order; entries beyond the list's length are absent).  The catalog-joined
display columns play no part in the split logic and are omitted. -/
structure KomoditiRow where
  NoUrutKomoditiFK : Option Int
  IDART : Option String
  Kolom : List (Option PyVal)
deriving DecidableEq

/-- `has_any_value` from the source: some `Kolom1..Kolom14` is not `None`. -/
def has_any_value (k : KomoditiRow) : Bool :=
  (List.range 14).any (fun i => (k.Kolom.getD i none).isSome)

/-- `k.get("NoUrutKomoditiFK") or 0`: absent becomes 0 (and a stored 0 is
falsy, so it also yields 0 — the same value). -/
def noUrutOrZero (k : KomoditiRow) : Int :=
  k.NoUrutKomoditiFK.getD 0

/-- `x.get("IDART") or ""`: absent becomes the empty string. -/
def idartOrEmpty (k : KomoditiRow) : String :=
  k.IDART.getD ""

/-- The composite sort key of the individual bucket: `(IDART or "",
NoUrutKomoditiFK or 0)`. -/
def sortKeyKomoditi (k : KomoditiRow) : String × Int :=
  (idartOrEmpty k, noUrutOrZero k)

/-- Python's lexicographic tuple comparison on `(str, int)` keys: strings
compare lexicographically by code point (core `List.lt` on their character
lists), then ints. -/
def tupleLe (a b : String × Int) : Prop :=
  List.lt a.1.data b.1.data ∨ (a.1 = b.1 ∧ a.2 ≤ b.2)

instance (a b : String × Int) : Decidable (tupleLe a b) := by
  unfold tupleLe
  exact @instDecidableOr _ _ (List.hasDecidableLt _ _) _

/-- The boolean comparator for the individual bucket's sort. -/
def komoditiLeB (a b : KomoditiRow) : Bool :=
  decide (tupleLe (sortKeyKomoditi a) (sortKeyKomoditi b))

/-- `split_komoditi` from the source: keep lines with at least one non-absent
value slot, partition by `NoUrutKomoditiFK or 0` into the ranges `< 186`,
`[186, 226)` and `≥ 226`, and stably sort the individual bucket by
`(IDART or "", NoUrutKomoditiFK or 0)`. -/
def split_komoditi (rows : List KomoditiRow) :
    List KomoditiRow × List KomoditiRow × List KomoditiRow :=
  let valid := rows.filter has_any_value
  let makanan := valid.filter (fun k => decide (noUrutOrZero k < 186))
  let individu := valid.filter (fun k => decide (186 ≤ noUrutOrZero k ∧ noUrutOrZero k < 226))
  let nonMakanan := valid.filter (fun k => decide (226 ≤ noUrutOrZero k))
  (makanan, individu.mergeSort komoditiLeB, nonMakanan)

/-- The `seen` accumulation loop of `build_idart_map`: append each truthy
(non-absent, non-empty) `IDART` the first time it appears. -/
def collectSeen (seen : List String) : List KomoditiRow → List String
  | [] => seen
  | item :: rest =>
    match item.IDART with
    | some id => if id ≠ "" ∧ id ∉ seen then collectSeen (seen ++ [id]) rest else collectSeen seen rest
    | none => collectSeen seen rest

/-- `build_idart_map` from the source: the dict `\x7bidart: idx + 1\x7d` over
`enumerate(seen)`, as the association list pairing `seen` with `1..N`. -/
def build_idart_map (individu : List KomoditiRow) : List (String × Nat) :=
  let seen := collectSeen [] individu
  seen.zip (List.range' 1 seen.length)

/-- The truthy `IDART` of one line: present and non-empty, else nothing. -/
def idOfRow (it : KomoditiRow) : Option String :=
  match it.IDART with
  | some id => if id = "" then none else some id
  | none => none

/-- The truthy `IDART` values of a list, in order, with multiplicity. -/
def idsOf (l : List KomoditiRow) : List String :=
  l.filterMap idOfRow

/-- C3: the field classifier maps `"B432R1K3"` to section `"B432"`, row `"1"`,
column `"K3"`; `"B6R8"` to section `"B6"`, row `"8"`, column `"K4"`; and
`"B5AK5J"` to section `"B5A"`, row `"1"`, column `"K5"` — stated both on the
classifier/address parser and end to end through `parse_blok_data`. -/
theorem classify_examples_spec :
    classify_blok_key "B432R1K3" = some "B432"
  ∧ parseAddress "R1K3" = some ("1", "K3")
  ∧ parse_blok_data [("B432R1K3", PyVal.vInt 7)] = [("B432", [("1", [("K3", PyVal.vInt 7)])])]
  ∧ classify_blok_key "B6R8" = some "B6"
  ∧ parseAddress "R8" = some ("8", "K4")
  ∧ parse_blok_data [("B6R8", PyVal.vInt 7)] = [("B6", [("8", [("K4", PyVal.vInt 7)])])]
  ∧ classify_blok_key "B5AK5J" = some "B5A"
  ∧ parseAddress "K5J" = some ("1", "K5")
  ∧ parse_blok_data [("B5AK5J", PyVal.vInt 7)] = [("B5A", [("1", [("K5", PyVal.vInt 7)])])] := by
  refine ⟨by decide, by decide, by decide, by decide, by decide, by decide, by decide, by decide,
    by decide⟩

unseal List.merge List.mergeSort in
/-- C4: for the flagged sections B5E and B5G, sorting the row-key set
`{"1","2","11","13"}` (presented in any of its orderings) yields
`["1","11","13","2"]`, whose labels are `["R1","R1.1","R1.3","R2"]`. -/
theorem sort_rows_flagged_example :
    (∀ l ∈ ["1", "2", "11", "13"].permutations',
        sort_rows "B5E" l = ["1", "11", "13", "2"]
      ∧ sort_rows "B5G" l = ["1", "11", "13", "2"])
  ∧ ["1", "11", "13", "2"].map (row_label "B5E") = ["R1", "R1.1", "R1.3", "R2"]
  ∧ ["1", "11", "13", "2"].map (row_label "B5G") = ["R1", "R1.1", "R1.3", "R2"] := by
  refine ⟨by decide, by decide, by decide⟩

/-- Witness for C4 at the in-order listing of the row-key set. -/
theorem sort_rows_flagged_example_witness :
    ["1", "2", "11", "13"] ∈ ["1", "2", "11", "13"].permutations'
  ∧ sort_rows "B5E" ["1", "2", "11", "13"] = ["1", "11", "13", "2"] :=
  ⟨by decide, (sort_rows_flagged_example.1 ["1", "2", "11", "13"] (by decide)).1⟩

/-- C8: `fmt_currency 1234.5 = "1,234"` (round-half-even to integer display,
thousands separator), `fmt_currency None = "-"`, `fmt_number 3.0 = "3"` and
`fmt_number 3.5 = "3.50"`.  The float arguments are the exact rationals
`2469/2`, `3` and `7/2`. -/
theorem formatter_value_examples :
    fmt_currency (PyVal.vFloat (mkRat 2469 2)) = Except.ok "1,234"
  ∧ fmt_currency PyVal.vNone = Except.ok "-"
  ∧ fmt_number (PyVal.vFloat (mkRat 3 1)) = Except.ok "3"
  ∧ fmt_number (PyVal.vFloat (mkRat 7 2)) = Except.ok "3.50" := by
  refine ⟨by decide, by decide, by decide, by decide⟩

/-- C10: `val_or_dash` sends only `None` and `""` to `"-"`; every other value,
the int 0 included, is returned in its `str` form. -/
theorem val_or_dash_spec :
    (∀ v : PyVal, v ≠ PyVal.vNone → v ≠ PyVal.vStr "" → val_or_dash v = pyStr v)
  ∧ val_or_dash PyVal.vNone = "-"
  ∧ val_or_dash (PyVal.vStr "") = "-"
  ∧ val_or_dash (PyVal.vInt 0) = "0" := by
  refine ⟨?_, by decide, by decide, by decide⟩
  intro v h1 h2
  cases v with
  | vNone => exact absurd rfl h1
  | vStr s =>
    have hs : s ≠ "" := fun h => h2 (by rw [h])
    simp [val_or_dash, pyEqEmptyStr, hs]
  | vInt n => simp [val_or_dash, pyEqEmptyStr]
  | vFloat q => simp [val_or_dash, pyEqEmptyStr]

/-- Witness for C10 at the int 5. -/
theorem val_or_dash_spec_witness :
    PyVal.vInt 5 ≠ PyVal.vNone ∧ PyVal.vInt 5 ≠ PyVal.vStr ""
  ∧ val_or_dash (PyVal.vInt 5) = pyStr (PyVal.vInt 5) :=
  ⟨by decide, by decide, val_or_dash_spec.1 (PyVal.vInt 5) (by decide) (by decide)⟩

set_option maxRecDepth 10000 in
/-- Counterexample to C7 as stated: `fmt_currency(10**400)` does not return
a string — `float()` raises `OverflowError`, which the
`except (TypeError, ValueError)` clause does not catch, so the formatter
fails; likewise `fmt_number`. -/
theorem formatters_total_counterexample :
    fmt_currency (PyVal.vInt ((10 ^ 400 : Nat) : Int)) = Except.error PyExc.overflowError
  ∧ fmt_number (PyVal.vInt ((10 ^ 400 : Nat) : Int)) = Except.error PyExc.overflowError
  ∧ ¬ ∃ s : String, fmt_currency (PyVal.vInt ((10 ^ 400 : Nat) : Int)) = Except.ok s := by
  refine ⟨by decide, by decide, ?_⟩
  rintro ⟨s, hs⟩
  rw [show fmt_currency (PyVal.vInt ((10 ^ 400 : Nat) : Int)) = Except.error PyExc.overflowError
    from by decide] at hs
  exact Except.noConfusion hs

set_option maxRecDepth 10000 in
/-- C7 (amended): `val_or_dash` is total; `fmt_currency` returns a string for
every input except an int beyond the double range (where `float()` raises an
uncaught `OverflowError`); `fmt_number` additionally fails when the converted
value is infinite (`int(±inf)` raises an uncaught `OverflowError`); and a
string that `float()` rejects makes both formatters return the raw string
itself rather than failing. -/
theorem formatters_total_amended :
    (∀ v : PyVal, (∀ n : Int, v = PyVal.vInt n → intOverflowsDouble n = false) →
        ∃ s : String, fmt_currency v = Except.ok s)
  ∧ (∀ v : PyVal, (∀ n : Int, v = PyVal.vInt n → intOverflowsDouble n = false) →
        (∀ b : Bool, pyFloatConv v ≠ Except.ok (PyFloat.inf b)) →
        ∃ s : String, fmt_number v = Except.ok s)
  ∧ (∀ v : PyVal, ∃ s : String, val_or_dash v = s)
  ∧ (∀ s : String, pyFloatConv (PyVal.vStr s) = Except.error PyExc.valueError →
        fmt_currency (PyVal.vStr s) = Except.ok s
      ∧ fmt_number (PyVal.vStr s) = Except.ok s)
  ∧ fmt_currency (PyVal.vStr "1_000") = Except.ok "1,000"
  ∧ fmt_currency (PyVal.vStr "inf") = Except.ok "inf"
  ∧ fmt_number (PyVal.vStr "nan") = Except.ok "nan"
  ∧ fmt_number (PyVal.vStr "inf") = Except.error PyExc.overflowError := by
  refine ⟨?_, ?_, fun v => ⟨_, rfl⟩, ?_, by decide, by decide, by decide, by decide⟩
  · intro v hint
    cases v with
    | vNone => exact ⟨"-", rfl⟩
    | vInt n =>
      have h := hint n rfl
      simp only [fmt_currency, pyFloatConv, h, Bool.false_eq_true, if_false]
      exact ⟨_, rfl⟩
    | vFloat q => exact ⟨_, rfl⟩
    | vStr s =>
      cases hp : parsePyFloat s with
      | none =>
        simp only [fmt_currency, pyFloatConv, hp]
        exact ⟨_, rfl⟩
      | some f =>
        simp only [fmt_currency, pyFloatConv, hp]
        exact ⟨_, rfl⟩
  · intro v hint hinf
    cases v with
    | vNone => exact ⟨"-", rfl⟩
    | vInt n =>
      have h := hint n rfl
      simp only [fmt_number, pyFloatConv, h, Bool.false_eq_true, if_false]
      exact ⟨_, rfl⟩
    | vFloat q => exact ⟨_, rfl⟩
    | vStr s =>
      cases hp : parsePyFloat s with
      | none =>
        simp only [fmt_number, pyFloatConv, hp]
        exact ⟨_, rfl⟩
      | some f =>
        cases f with
        | fin q =>
          simp only [fmt_number, pyFloatConv, hp]
          exact ⟨_, rfl⟩
        | inf b =>
          exact absurd (by simp [pyFloatConv, hp]) (hinf b)
        | nan =>
          simp only [fmt_number, pyFloatConv, hp]
          exact ⟨_, rfl⟩
  · intro s h
    have hc : fmt_currency (PyVal.vStr s)
        = match pyFloatConv (PyVal.vStr s) with
          | .ok f => .ok (fmtFixed0 f)
          | .error .typeError => .ok (pyStr (PyVal.vStr s))
          | .error .valueError => .ok (pyStr (PyVal.vStr s))
          | .error .overflowError => .error .overflowError := rfl
    have hn : fmt_number (PyVal.vStr s)
        = match pyFloatConv (PyVal.vStr s) with
          | .ok (.fin q) => .ok (if q.den = 1 then groupedInt q.num else fmtTwoDec q)
          | .ok (.inf _) => .error .overflowError
          | .ok .nan => .ok (pyStr (PyVal.vStr s))
          | .error .typeError => .ok (pyStr (PyVal.vStr s))
          | .error .valueError => .ok (pyStr (PyVal.vStr s))
          | .error .overflowError => .error .overflowError := rfl
    rw [h] at hc hn
    exact ⟨hc, hn⟩

set_option maxRecDepth 10000 in
/-- Witness for the amended C7: the int 5 is within double range and formats;
the non-numeric string "abc" falls back to itself in both formatters. -/
theorem formatters_total_amended_witness :
    intOverflowsDouble 5 = false
  ∧ pyFloatConv (PyVal.vStr "abc") = Except.error PyExc.valueError
  ∧ (∃ s : String, fmt_currency (PyVal.vInt 5) = Except.ok s)
  ∧ fmt_currency (PyVal.vStr "abc") = Except.ok "abc"
  ∧ fmt_number (PyVal.vStr "abc") = Except.ok "abc" :=
  ⟨by decide, by decide,
    formatters_total_amended.1 (PyVal.vInt 5) (by intro n hn; cases hn; decide),
    (formatters_total_amended.2.2.2.1 "abc" (by decide)).1,
    (formatters_total_amended.2.2.2.1 "abc" (by decide)).2⟩

/-- C6: a commodity line whose `NoUrutKomoditiFK` is absent is treated as 0
both by the range bucketing and by the sort key of the individual bucket, so
(when it has any non-absent value slot) it lands in the food bucket. -/
theorem absent_noUrut_to_food (rows : List KomoditiRow) (k : KomoditiRow)
    (hk : k ∈ rows) (hv : has_any_value k = true) (hn : k.NoUrutKomoditiFK = none) :
    noUrutOrZero k = 0
  ∧ sortKeyKomoditi k = (idartOrEmpty k, 0)
  ∧ k ∈ (split_komoditi rows).1 := by
  have h0 : noUrutOrZero k = 0 := by simp [noUrutOrZero, hn]
  refine ⟨h0, by simp [sortKeyKomoditi, h0], ?_⟩
  have hsplit : (split_komoditi rows).1
      = (rows.filter has_any_value).filter (fun k => decide (noUrutOrZero k < 186)) := rfl
  rw [hsplit]
  exact List.mem_filter.mpr ⟨List.mem_filter.mpr ⟨hk, hv⟩, by rw [h0]; decide⟩

/-- Witness for C6 at a single line with an absent sequence number. -/
theorem absent_noUrut_to_food_witness :
    (⟨none, none, [some (PyVal.vInt 1)]⟩ : KomoditiRow)
      ∈ [(⟨none, none, [some (PyVal.vInt 1)]⟩ : KomoditiRow)]
  ∧ has_any_value ⟨none, none, [some (PyVal.vInt 1)]⟩ = true
  ∧ (⟨none, none, [some (PyVal.vInt 1)]⟩ : KomoditiRow).NoUrutKomoditiFK = none
  ∧ (⟨none, none, [some (PyVal.vInt 1)]⟩ : KomoditiRow)
      ∈ (split_komoditi [⟨none, none, [some (PyVal.vInt 1)]⟩]).1 :=
  ⟨by decide, by decide, rfl,
    (absent_noUrut_to_food [⟨none, none, [some (PyVal.vInt 1)]⟩] _
      (by decide) (by decide) rfl).2.2⟩

/-- Counterexample to C1 as stated: in the record
`{"B6RX": 5, "B6R1": None}` both fields classify to section `"B6"`, the
non-absent field `"B6RX"` has an unparseable suffix and is dropped, and the
parseable field `"B6R1"` is absent — so section `"B6"` appears with the row
table `{"1": {"K4": None}}`, which contains no non-absent value. -/
theorem parse_blok_data_all_absent_row_counterexample :
    parse_blok_data [("B6RX", PyVal.vInt 5), ("B6R1", PyVal.vNone)]
      = [("B6", [("1", [("K4", PyVal.vNone)])])]
  ∧ ¬ (∀ p ∈ parse_blok_data [("B6RX", PyVal.vInt 5), ("B6R1", PyVal.vNone)],
        ∃ rc ∈ p.2, ∃ cv ∈ rc.2, cv.2 ≠ PyVal.vNone) := by
  refine ⟨by decide, by decide⟩

/-- C1 (amended): every section id in the result of `parse_blok_data` maps to
a non-empty row table, and a section appears only when at least one of its
classified fields has a non-absent value; however the row table itself may
contain only absent values (see the counterexample, where the only non-absent
field of the section has an unparseable suffix). -/
theorem parse_blok_data_populated (rekap : FlatRecord) (b : String) (rt : RowMap)
    (hmem : (b, rt) ∈ parse_blok_data rekap) :
    rt ≠ [] ∧ ∃ kv ∈ rekap, classify_blok_key kv.1 = some b ∧ kv.2 ≠ PyVal.vNone := by
  simp only [parse_blok_data, List.mem_filterMap] at hmem
  obtain ⟨b2, hb2, hf⟩ := hmem
  split_ifs at hf with h1 h2
  rw [Option.some_inj] at hf
  obtain ⟨hb, hrt⟩ := Prod.ext_iff.mp hf
  dsimp only at hb hrt
  subst hb
  constructor
  · rw [← hrt]
    intro hnil
    exact h2 (by rw [hnil]; rfl)
  · simp only [List.all_eq_true, not_forall] at h1
    obtain ⟨kv, hkv, hne⟩ := h1
    rw [List.mem_filter] at hkv
    refine ⟨kv, hkv.1, of_decide_eq_true hkv.2, ?_⟩
    intro hv
    exact hne (decide_eq_true hv)

/-- Witness for the amended C1 at a one-field record. -/
theorem parse_blok_data_populated_witness :
    ("B6", [("1", [("K4", PyVal.vInt 5)])]) ∈ parse_blok_data [("B6R1", PyVal.vInt 5)]
  ∧ ([("1", [("K4", PyVal.vInt 5)])] : RowMap) ≠ []
  ∧ ∃ kv ∈ [("B6R1", PyVal.vInt 5)],
      classify_blok_key kv.1 = some "B6" ∧ kv.2 ≠ PyVal.vNone :=
  ⟨by decide,
    (parse_blok_data_populated [("B6R1", PyVal.vInt 5)] "B6"
      [("1", [("K4", PyVal.vInt 5)])] (by decide)).1,
    (parse_blok_data_populated [("B6R1", PyVal.vInt 5)] "B6"
      [("1", [("K4", PyVal.vInt 5)])] (by decide)).2⟩

/-- Appending the filters of three mutually exclusive, jointly exhaustive
boolean predicates permutes the original list. -/
lemma filter_partition_perm {α : Type} (l : List α) (p q r : α → Bool)
    (h : ∀ a, (p a = true ∧ q a = false ∧ r a = false)
        ∨ (p a = false ∧ q a = true ∧ r a = false)
        ∨ (p a = false ∧ q a = false ∧ r a = true)) :
    (l.filter p ++ l.filter q ++ l.filter r).Perm l := by
  induction l with
  | nil => simp
  | cons a t ih =>
    rcases h a with ⟨h1, h2, h3⟩ | ⟨h1, h2, h3⟩ | ⟨h1, h2, h3⟩
    · simp only [List.filter_cons, h1, h2, h3, Bool.false_eq_true, ite_false, ite_true]
      exact List.Perm.cons a ih
    · simp only [List.filter_cons, h1, h2, h3, Bool.false_eq_true, ite_false, ite_true]
      have e1 : t.filter p ++ (a :: t.filter q) ++ t.filter r
          = t.filter p ++ a :: (t.filter q ++ t.filter r) := by simp
      rw [e1]
      refine List.Perm.trans List.perm_middle (List.Perm.cons a ?_)
      rw [← List.append_assoc]
      exact ih
    · simp only [List.filter_cons, h1, h2, h3, Bool.false_eq_true, ite_false, ite_true]
      exact List.Perm.trans List.perm_middle (List.Perm.cons a ih)

/-- C2: the three buckets of `split_komoditi` are pairwise disjoint, their
concatenation is a permutation of the lines having at least one non-absent
value slot, every such line with sequence number `< 186` is in the food
bucket, and a line with no non-absent slot is in none of the buckets. -/
theorem split_komoditi_partition (rows : List KomoditiRow) :
    (∀ k : KomoditiRow,
        (k ∈ (split_komoditi rows).1 → k ∉ (split_komoditi rows).2.1)
      ∧ (k ∈ (split_komoditi rows).1 → k ∉ (split_komoditi rows).2.2)
      ∧ (k ∈ (split_komoditi rows).2.1 → k ∉ (split_komoditi rows).2.2))
  ∧ ((split_komoditi rows).1 ++ (split_komoditi rows).2.1 ++ (split_komoditi rows).2.2).Perm
      (rows.filter has_any_value)
  ∧ (∀ k ∈ rows, has_any_value k = true → noUrutOrZero k < 186 →
      k ∈ (split_komoditi rows).1)
  ∧ (∀ k : KomoditiRow, has_any_value k = false →
      k ∉ (split_komoditi rows).1 ∧ k ∉ (split_komoditi rows).2.1
        ∧ k ∉ (split_komoditi rows).2.2) := by
  have d1 : (split_komoditi rows).1
      = (rows.filter has_any_value).filter (fun k => decide (noUrutOrZero k < 186)) := rfl
  have d2 : (split_komoditi rows).2.1
      = ((rows.filter has_any_value).filter
          (fun k => decide (186 ≤ noUrutOrZero k ∧ noUrutOrZero k < 226))).mergeSort
          komoditiLeB := rfl
  have d3 : (split_komoditi rows).2.2
      = (rows.filter has_any_value).filter (fun k => decide (226 ≤ noUrutOrZero k)) := rfl
  have m1 : ∀ k : KomoditiRow, k ∈ (split_komoditi rows).1 →
      k ∈ rows.filter has_any_value ∧ noUrutOrZero k < 186 := by
    intro k hk
    rw [d1, List.mem_filter] at hk
    exact ⟨hk.1, of_decide_eq_true hk.2⟩
  have m2 : ∀ k : KomoditiRow, k ∈ (split_komoditi rows).2.1 →
      k ∈ rows.filter has_any_value ∧ 186 ≤ noUrutOrZero k ∧ noUrutOrZero k < 226 := by
    intro k hk
    rw [d2, List.mem_mergeSort, List.mem_filter] at hk
    exact ⟨hk.1, of_decide_eq_true hk.2⟩
  have m3 : ∀ k : KomoditiRow, k ∈ (split_komoditi rows).2.2 →
      k ∈ rows.filter has_any_value ∧ 226 ≤ noUrutOrZero k := by
    intro k hk
    rw [d3, List.mem_filter] at hk
    exact ⟨hk.1, of_decide_eq_true hk.2⟩
  refine ⟨?_, ?_, ?_, ?_⟩
  · intro k
    refine ⟨?_, ?_, ?_⟩
    · intro ha hb
      have := (m1 k ha).2
      have := (m2 k hb).2
      omega
    · intro ha hb
      have := (m1 k ha).2
      have := (m3 k hb).2
      omega
    · intro ha hb
      have := (m2 k ha).2
      have := (m3 k hb).2
      omega
  · have hsplit3 : ((rows.filter has_any_value).filter (fun k => decide (noUrutOrZero k < 186))
        ++ (rows.filter has_any_value).filter
            (fun k => decide (186 ≤ noUrutOrZero k ∧ noUrutOrZero k < 226))
        ++ (rows.filter has_any_value).filter
            (fun k => decide (226 ≤ noUrutOrZero k))).Perm (rows.filter has_any_value) := by
      refine filter_partition_perm (rows.filter has_any_value) _ _ _ ?_
      intro a
      by_cases hlt : noUrutOrZero a < 186
      · left
        refine ⟨decide_eq_true hlt, ?_, ?_⟩ <;> simp <;> omega
      · by_cases hmid : noUrutOrZero a < 226
        · right; left
          refine ⟨?_, decide_eq_true ⟨by omega, hmid⟩, ?_⟩ <;> simp <;> omega
        · right; right
          refine ⟨?_, ?_, decide_eq_true (by omega)⟩ <;> simp <;> omega
    refine List.Perm.trans ?_ hsplit3
    rw [d1, d2, d3]
    exact ((List.Perm.refl _).append (List.mergeSort_perm _ _)).append (List.Perm.refl _)
  · intro k hk hv hlt
    rw [d1]
    exact List.mem_filter.mpr ⟨List.mem_filter.mpr ⟨hk, hv⟩, decide_eq_true hlt⟩
  · intro k hv
    have hnv : k ∉ rows.filter has_any_value := by
      intro hmem
      rw [List.mem_filter] at hmem
      rw [hv] at hmem
      exact Bool.false_ne_true hmem.2
    exact ⟨fun h => hnv (m1 k h).1, fun h => hnv (m2 k h).1, fun h => hnv (m3 k h).1⟩

/-- Witness for C2: a line with sequence number 10 and one populated slot
lands in the food bucket. -/
theorem split_komoditi_partition_witness :
    (⟨some 10, none, [some (PyVal.vInt 1)]⟩ : KomoditiRow)
      ∈ [(⟨some 10, none, [some (PyVal.vInt 1)]⟩ : KomoditiRow)]
  ∧ has_any_value ⟨some 10, none, [some (PyVal.vInt 1)]⟩ = true
  ∧ noUrutOrZero ⟨some 10, none, [some (PyVal.vInt 1)]⟩ < 186
  ∧ (⟨some 10, none, [some (PyVal.vInt 1)]⟩ : KomoditiRow)
      ∈ (split_komoditi [⟨some 10, none, [some (PyVal.vInt 1)]⟩]).1 :=
  ⟨by decide, by decide, by decide,
    (split_komoditi_partition [⟨some 10, none, [some (PyVal.vInt 1)]⟩]).2.2.1 _
      (by decide) (by decide) (by decide)⟩

/-- Transitivity of the composite `(personId, sequenceNumber)` comparison. -/
lemma tupleLe_trans {a b c : String × Int} (h1 : tupleLe a b) (h2 : tupleLe b c) :
    tupleLe a c := by
  rcases h1 with h1 | ⟨e1, i1⟩
  · rcases h2 with h2 | ⟨e2, i2⟩
    · left
      exact List.lt_trans (fun hx hy => lt_trans hx hy)
        (fun hx hy => not_lt.mpr (le_trans (not_lt.mp hy) (not_lt.mp hx))) h1 h2
    · left
      rw [← e2]
      exact h1
  · rcases h2 with h2 | ⟨e2, i2⟩
    · left
      rw [e1]
      exact h2
    · right
      exact ⟨e1.trans e2, le_trans i1 i2⟩

/-- Totality of the composite `(personId, sequenceNumber)` comparison. -/
lemma tupleLe_total (a b : String × Int) : tupleLe a b ∨ tupleLe b a := by
  by_cases h1 : List.lt a.1.data b.1.data
  · exact Or.inl (Or.inl h1)
  · by_cases h2 : List.lt b.1.data a.1.data
    · exact Or.inr (Or.inl h2)
    · have he : a.1.data = b.1.data :=
        List.lt_antisymm (fun hx hy => le_antisymm (not_lt.mp hy) (not_lt.mp hx)) h1 h2
      have hs : a.1 = b.1 := String.ext he
      rcases Int.le_total a.2 b.2 with hi | hi
      · exact Or.inl (Or.inr ⟨hs, hi⟩)
      · exact Or.inr (Or.inr ⟨hs.symm, hi⟩)

lemma komoditiLeB_trans : ∀ (a b c : KomoditiRow),
    komoditiLeB a b → komoditiLeB b c → komoditiLeB a c := by
  intro a b c h1 h2
  exact decide_eq_true (tupleLe_trans (of_decide_eq_true h1) (of_decide_eq_true h2))

lemma komoditiLeB_total : ∀ (a b : KomoditiRow), komoditiLeB a b || komoditiLeB b a := by
  intro a b
  rcases tupleLe_total (sortKeyKomoditi a) (sortKeyKomoditi b) with h | h
  · simp [komoditiLeB, h]
  · simp [komoditiLeB, h]

/-- C9: the food and non-food buckets are subsequences of the input (relative
order preserved); only the individual bucket is reordered — it is sorted by
the composite `(personId, sequenceNumber)` key and is a permutation of the
corresponding range filter of the valid lines. -/
theorem split_komoditi_order (rows : List KomoditiRow) :
    (split_komoditi rows).1.Sublist rows
  ∧ (split_komoditi rows).2.2.Sublist rows
  ∧ (split_komoditi rows).2.1.Pairwise
      (fun a b => tupleLe (sortKeyKomoditi a) (sortKeyKomoditi b))
  ∧ (split_komoditi rows).2.1.Perm
      ((rows.filter has_any_value).filter
        (fun k => decide (186 ≤ noUrutOrZero k ∧ noUrutOrZero k < 226))) := by
  refine ⟨?_, ?_, ?_, ?_⟩
  · exact (List.filter_sublist _).trans (List.filter_sublist _)
  · exact (List.filter_sublist _).trans (List.filter_sublist _)
  · have hp := List.sorted_mergeSort komoditiLeB_trans komoditiLeB_total
      ((rows.filter has_any_value).filter
        (fun k => decide (186 ≤ noUrutOrZero k ∧ noUrutOrZero k < 226)))
    exact List.Pairwise.imp (fun h => of_decide_eq_true h) hp
  · exact List.mergeSort_perm _ _

/-- `collectSeen` is the left fold that inserts each new id at the end: the
first-appearance deduplication of the truthy ids. -/
lemma collectSeen_eq_fold (l : List KomoditiRow) : ∀ acc : List String,
    collectSeen acc l
      = (idsOf l).foldl (fun acc a => if a ∈ acc then acc else acc ++ [a]) acc := by
  induction l with
  | nil => intro acc; rfl
  | cons it rest ih =>
    intro acc
    cases hid : it.IDART with
    | none =>
      simp only [collectSeen, hid, idsOf, idOfRow, List.filterMap_cons]
      exact ih acc
    | some id =>
      by_cases hempty : id = ""
      · simp only [collectSeen, hid, hempty, idsOf, idOfRow, List.filterMap_cons, ite_true,
          ne_eq, not_true_eq_false, false_and, if_false]
        exact ih acc
      · by_cases hmem : id ∈ acc
        · simp only [collectSeen, hid, idsOf, idOfRow, List.filterMap_cons, hempty, ite_false,
            List.foldl_cons, ne_eq, hmem, not_true_eq_false, and_false, if_false, if_pos hmem]
          exact ih acc
        · simp only [collectSeen, hid, idsOf, idOfRow, List.filterMap_cons, hempty, ite_false,
            List.foldl_cons, ne_eq, hmem, not_false_eq_true, and_true, if_neg hmem]
          exact ih (acc ++ [id])

lemma idOfRow_eq_some {it : KomoditiRow} {s : String} :
    idOfRow it = some s ↔ it.IDART = some s ∧ s ≠ "" := by
  unfold idOfRow
  cases hid : it.IDART with
  | none => simp
  | some id =>
    by_cases hempty : id = ""
    · subst hempty
      constructor
      · intro h
        simp at h
      · rintro ⟨h1, h2⟩
        rw [Option.some_inj] at h1
        exact absurd h1.symm h2
    · simp only [hempty, ite_false, Option.some_inj]
      constructor
      · intro h
        exact ⟨h ▸ rfl, fun hs => hempty (h.trans hs)⟩
      · rintro ⟨h1, h2⟩
        exact h1

lemma foldIns_mem (ids : List String) : ∀ (acc : List String) (s : String),
    (s ∈ ids.foldl (fun acc a => if a ∈ acc then acc else acc ++ [a]) acc)
      ↔ s ∈ acc ∨ s ∈ ids := by
  induction ids with
  | nil => intro acc s; simp
  | cons a t ih =>
    intro acc s
    simp only [List.foldl_cons]
    by_cases h : a ∈ acc
    · rw [if_pos h, ih]
      constructor
      · rintro (hs | hs)
        · exact Or.inl hs
        · exact Or.inr (List.mem_cons_of_mem a hs)
      · rintro (hs | hs)
        · exact Or.inl hs
        · rcases List.mem_cons.mp hs with he | ht
          · exact Or.inl (he ▸ h)
          · exact Or.inr ht
    · rw [if_neg h, ih]
      simp only [List.mem_append, List.mem_singleton, List.mem_cons]
      tauto

lemma foldIns_nodup (ids : List String) : ∀ acc : List String, acc.Nodup →
    (ids.foldl (fun acc a => if a ∈ acc then acc else acc ++ [a]) acc).Nodup := by
  induction ids with
  | nil => intro acc h; exact h
  | cons a t ih =>
    intro acc h
    simp only [List.foldl_cons]
    by_cases hmem : a ∈ acc
    · rw [if_pos hmem]
      exact ih acc h
    · rw [if_neg hmem]
      refine ih _ ?_
      simp [List.nodup_append, h, hmem]

lemma mem_idsOf {s : String} {l : List KomoditiRow} :
    s ∈ idsOf l ↔ s ≠ "" ∧ ∃ it ∈ l, it.IDART = some s := by
  unfold idsOf
  rw [List.mem_filterMap]
  constructor
  · rintro ⟨it, hit, hsome⟩
    obtain ⟨h1, h2⟩ := idOfRow_eq_some.mp hsome
    exact ⟨h2, it, hit, h1⟩
  · rintro ⟨hne, it, hit, hsome⟩
    exact ⟨it, hit, idOfRow_eq_some.mpr ⟨hsome, hne⟩⟩

/-- C5: `build_idart_map` pairs the first-appearance deduplication of the
distinct non-empty person ids with `1..N` — its keys are exactly those ids
(never the empty or absent id), without duplicates, its values are `1..N`, and
re-running it on the same list gives the same mapping. -/
theorem build_idart_map_spec (individu : List KomoditiRow) :
    (build_idart_map individu).map Prod.fst = firstDedup (idsOf individu)
  ∧ (build_idart_map individu).map Prod.snd
      = List.range' 1 (firstDedup (idsOf individu)).length
  ∧ (firstDedup (idsOf individu)).Nodup
  ∧ (∀ s : String,
      s ∈ firstDedup (idsOf individu) ↔ s ≠ "" ∧ ∃ it ∈ individu, it.IDART = some s)
  ∧ build_idart_map individu = build_idart_map individu := by
  have hseen : collectSeen [] individu = firstDedup (idsOf individu) :=
    collectSeen_eq_fold individu []
  have hmap : build_idart_map individu
      = (collectSeen [] individu).zip
          (List.range' 1 (collectSeen [] individu).length) := rfl
  refine ⟨?_, ?_, ?_, ?_, rfl⟩
  · rw [hmap, hseen]
    exact List.map_fst_zip _ _ (by rw [List.length_range'])
  · rw [hmap, hseen]
    exact List.map_snd_zip _ _ (by rw [List.length_range'])
  · exact foldIns_nodup _ [] List.nodup_nil
  · intro s
    rw [show firstDedup (idsOf individu)
        = (idsOf individu).foldl (fun acc a => if a ∈ acc then acc else acc ++ [a]) []
      from rfl]
    rw [foldIns_mem]
    simp only [List.not_mem_nil, false_or]
    exact mem_idsOf

/-- Witness for C5 at a two-line individual bucket: the keys are the two ids
in first-appearance order and a concrete id is a key. -/
theorem build_idart_map_spec_witness :
    (build_idart_map [⟨some 190, some "02", [some (PyVal.vInt 1)]⟩,
        ⟨some 191, some "01", [some (PyVal.vInt 1)]⟩]).map Prod.fst
      = firstDedup (idsOf [⟨some 190, some "02", [some (PyVal.vInt 1)]⟩,
          ⟨some 191, some "01", [some (PyVal.vInt 1)]⟩])
  ∧ "01" ∈ firstDedup (idsOf [⟨some 190, some "02", [some (PyVal.vInt 1)]⟩,
      ⟨some 191, some "01", [some (PyVal.vInt 1)]⟩]) :=
  ⟨(build_idart_map_spec _).1,
    ((build_idart_map_spec [⟨some 190, some "02", [some (PyVal.vInt 1)]⟩,
        ⟨some 191, some "01", [some (PyVal.vInt 1)]⟩]).2.2.2.1 "01").mpr
      ⟨by decide, ⟨some 191, some "01", [some (PyVal.vInt 1)]⟩, by decide, rfl⟩⟩
